import Mathlib

/-!
Request signing in `ticket-evolution-tools.js`.

A shallow embedding of `TicketEvolutionTools.generateSignature` and
`TicketEvolutionTools.makeRequest` together with the parts of the JavaScript
run-time they rely on: own-property order of ordinary objects, the default
`Array.prototype.sort` comparison, `toString` on parameter values and the
`application/x-www-form-urlencoded` serialiser behind `URLSearchParams`.

JavaScript strings are represented by `String`; every operation that JavaScript
defines on UTF-16 code units is computed on the code units of the characters.
Three tables of the run-time are parameters: the upper-case mapping of the
characters above U+007F, the HMAC-SHA256 digest in base64, and the remote
service behind `fetch`.
-/

namespace TicketEvolution

deriving instance DecidableEq for Except

/-! ## Strings -/

/-- The UTF-16 code units of one character. -/
def utf16Units (c : Char) : List Nat :=
  if c.toNat < 0x10000 then [c.toNat]
  else [0xD800 + (c.toNat - 0x10000) / 0x400, 0xDC00 + (c.toNat - 0x10000) % 0x400]

/-- The UTF-16 code units of a list of characters. -/
def unitsOfChars : List Char → List Nat
  | [] => []
  | c :: cs => utf16Units c ++ unitsOfChars cs

/-- The UTF-16 code units of a string, the sequence JavaScript compares. -/
def codeUnits (s : String) : List Nat := unitsOfChars s.data

/-- Lexicographic "not greater" on code-unit sequences. -/
def unitsLE : List Nat → List Nat → Bool
  | [], _ => true
  | _ :: _, [] => false
  | a :: as, b :: bs => if a < b then true else if b < a then false else unitsLE as bs

/-- The order of the default `sort()` comparison on strings: `a` does not
sort after `b`. -/
def keyLE (a b : String) : Prop := unitsLE (codeUnits a) (codeUnits b) = true

instance : DecidableRel keyLE := fun a b =>
  inferInstanceAs (Decidable (unitsLE (codeUnits a) (codeUnits b) = true))

/-- `Array.prototype.sort()` without a comparator, on an array of strings. -/
def jsSort (keys : List String) : List String := List.insertionSort keyLE keys

/-- `String.prototype.startsWith` for an ASCII search string. -/
def startsWith (s pre : String) : Bool := pre.data.isPrefixOf s.data

/-- `String.prototype.substring(n)` on a string whose first `n` characters are
in the Basic Multilingual Plane. -/
def substring (s : String) (n : Nat) : String := String.mk (s.data.drop n)

/-- The upper-case form of an ASCII character: a letter `a`-`z` becomes the
capital letter, 32 code points below; every other ASCII character stays. -/
def upperChar (c : Char) : Char :=
  if 97 ≤ c.toNat ∧ c.toNat ≤ 122 then Char.ofNat (c.toNat - 32) else c

/-- `String.prototype.toUpperCase`: every character is replaced by its
upper-case form, which for a character above U+007F may be several characters
(`ß` gives `SS`). The mapping of the characters above U+007F is the table of
the Unicode Character Database, the parameter `unicodeUpper`. -/
def toUpperCase (unicodeUpper : Char → List Char) (s : String) : String :=
  String.mk (s.data.flatMap (fun c => if c.toNat < 128 then [upperChar c] else unicodeUpper c))

/-- The decimal digits of a natural number, most significant first. -/
def digitsAux : Nat → Nat → List Char → List Char
  | 0, _, acc => acc
  | fuel + 1, n, acc =>
    let acc1 := Char.ofNat (48 + n % 10) :: acc
    if n / 10 = 0 then acc1 else digitsAux fuel (n / 10) acc1

/-- The decimal text of a natural number. -/
def natToString (n : Nat) : String := String.mk (digitsAux (n + 1) n [])

/-- The decimal numeral of an integer. -/
def intToString (n : Int) : String :=
  match n with
  | Int.ofNat k => natToString k
  | Int.negSucc k => "-" ++ natToString (k + 1)

/-- A Number value: a safe integer (of magnitude at most `2 ^ 53 - 1`), or any
other Number (a fraction, a larger integer, `NaN`, an infinity), which is
given by the text that `Number.prototype.toString` returns for it. -/
inductive JSNumber where
  | int (n : Int) (safe : n.natAbs < 9007199254740992)
  | other (text : String)
deriving DecidableEq

/-- `Number.prototype.toString`: the plain decimal numeral of a safe
integer. -/
def numberToString : JSNumber → String
  | .int n _ => intToString n
  | .other text => text

/-! ## Percent encoding -/

/-- The UTF-8 bytes of one character. -/
def utf8Bytes (c : Char) : List Nat :=
  let n := c.toNat
  if n < 0x80 then [n]
  else if n < 0x800 then [0xC0 + n / 0x40, 0x80 + n % 0x40]
  else if n < 0x10000 then [0xE0 + n / 0x1000, 0x80 + n / 0x40 % 0x40, 0x80 + n % 0x40]
  else [0xF0 + n / 0x40000, 0x80 + n / 0x1000 % 0x40, 0x80 + n / 0x40 % 0x40, 0x80 + n % 0x40]

/-- An upper-case hexadecimal digit. -/
def hexDigit (n : Nat) : Char := "0123456789ABCDEF".data.getD n '0'

/-- The three characters `%XX` of a percent-encoded byte. -/
def percentByte (b : Nat) : List Char := ['%', hexDigit (b / 16), hexDigit (b % 16)]

/-- The characters the `application/x-www-form-urlencoded` serialiser copies
unchanged: ASCII letters and digits and `*`, `-`, `.`, `_`. -/
def formSafe (c : Char) : Bool :=
  let n := c.toNat
  (48 ≤ n && n ≤ 57) || (65 ≤ n && n ≤ 90) || (97 ≤ n && n ≤ 122) ||
    n == 42 || n == 45 || n == 46 || n == 95

/-- The serialisation of one character: a space becomes `+`, a safe character
stays, every other character becomes its percent-encoded UTF-8 bytes. -/
def formEncodeChar (c : Char) : List Char :=
  if c = ' ' then ['+']
  else if formSafe c then [c]
  else (utf8Bytes c).flatMap percentByte

/-- The serialisation of a name or a value. -/
def formEncode (s : String) : String := String.mk (s.data.flatMap formEncodeChar)

/-- Strings joined with a separator. -/
def joinWith (sep : String) : List String → String
  | [] => ""
  | [s] => s
  | s :: t :: rest => s ++ sep ++ joinWith sep (t :: rest)

/-- `URLSearchParams.prototype.toString` on the list of appended pairs. -/
def serialize (pairs : List (String × String)) : String :=
  joinWith "&" (pairs.map (fun p => formEncode p.1 ++ "=" ++ formEncode p.2))

/-! ## Ordinary objects -/

/-- Whether a character is a decimal digit. -/
def isDigit (c : Char) : Bool := 48 ≤ c.toNat && c.toNat ≤ 57

/-- The number written by a list of decimal digits. -/
def digitsValue (cs : List Char) : Nat := cs.foldl (fun n c => 10 * n + (c.toNat - 48)) 0

/-- The array index a property key denotes, if any: a canonical decimal
numeral (no leading zero) below `2 ^ 32 - 1`. -/
def arrayIndex? (key : String) : Option Nat :=
  match key.data with
  | [] => none
  | c :: cs =>
    if (c :: cs).all isDigit && (c != '0' || cs.isEmpty) && digitsValue (c :: cs) < 4294967295
    then some (digitsValue (c :: cs)) else none

/-- Whether a property key is an array index. -/
def isIndexKey (key : String) : Bool := (arrayIndex? key).isSome

/-- The numeric value used to order array-index keys. -/
def indexValue (key : String) : Nat := (arrayIndex? key).getD 0

/-- An ordinary object with data properties only: its own enumerable
string-keyed properties in order of creation. -/
structure JSObject (V : Type) where
  props : List (String × V)
deriving DecidableEq

namespace JSObject

variable {V : Type}

/-- The object literal `{}`. -/
def empty : JSObject V := ⟨[]⟩

/-- No key is held twice. -/
def WellFormed (o : JSObject V) : Prop := (o.props.map Prod.fst).Nodup

instance (o : JSObject V) : Decidable o.WellFormed :=
  inferInstanceAs (Decidable (o.props.map Prod.fst).Nodup)

/-- The own property `o[key]`, `none` when there is none. -/
def get? (o : JSObject V) (key : String) : Option V :=
  match o.props.find? (fun p => p.1 == key) with
  | some p => some p.2
  | none => none

/-- The own property keys in the order `Object.keys` and `Object.entries`
enumerate them: array indices in ascending numeric order, then the other keys
in order of creation. -/
def ownKeys (o : JSObject V) : List String :=
  let ks := o.props.map Prod.fst
  List.insertionSort (fun a b => indexValue a ≤ indexValue b) (ks.filter isIndexKey) ++
    ks.filter (fun k => !isIndexKey k)

/-- `Object.entries(o)`. -/
def entries (o : JSObject V) : List (String × V) :=
  o.ownKeys.filterMap (fun k => (o.get? k).map (fun v => (k, v)))

/-- The assignment `o[key] = v` on an object that inherits from
`Object.prototype`: the key `__proto__` reaches the inherited setter and
creates no own property; an existing property keeps its place; a new one is
created last. -/
def set (o : JSObject V) (key : String) (v : V) : JSObject V :=
  if key = "__proto__" then o
  else if o.props.any (fun p => p.1 == key) then
    ⟨o.props.map (fun p => if p.1 == key then (key, v) else p)⟩
  else ⟨o.props ++ [(key, v)]⟩

/-- `key in o` for a key that `Object.prototype` does not define. -/
def has (o : JSObject V) (key : String) : Bool := o.props.any (fun p => p.1 == key)

end JSObject

/-! ## Parameter values and errors -/

/-- A thrown exception: a `TypeError` raised by the run-time, or an `Error`
created by the program with `new Error(message)`. -/
inductive JSError where
  | typeError (message : String)
  | error (message : String)
deriving DecidableEq

/-- The `message` property of an exception. -/
def JSError.message : JSError → String
  | .typeError m => m
  | .error m => m

/-- What the program can observe of a nested plain object (an object that
inherits from `Object.prototype` and holds string-keyed data properties only):
the names of its own properties, and whether it is circular, that is, reaches
itself or a value that encloses it through its properties. -/
structure PlainObject where
  keys : List String
  circular : Bool
deriving DecidableEq

/-- A value that is not an array: the three scalars, `null`, `undefined`, and
a nested plain object. Functions, symbols and BigInt values are not
represented. -/
inductive Atom where
  | str (s : String)
  | num (x : JSNumber)
  | bool (b : Bool)
  | null
  | undefined
  | object (o : PlainObject)
deriving DecidableEq

/-- A parameter value: an atom, or an array of atoms (an item that is itself
an array is not represented). -/
inductive Value where
  | atom (a : Atom)
  | list (items : List Atom)
deriving DecidableEq

/-- The scalars of the data model: strings, numbers and booleans. -/
def Atom.isScalar : Atom → Bool
  | .str _ => true
  | .num _ => true
  | .bool _ => true
  | _ => false

/-- The method call `a.toString()`, where `name` is the variable that holds
`a`. On a plain object the method is the one inherited from
`Object.prototype`, unless the object has an own property `toString`, which,
being data, cannot be called. -/
def Atom.toString (name : String) : Atom → Except JSError String
  | .str s => .ok s
  | .num x => .ok (numberToString x)
  | .bool true => .ok "true"
  | .bool false => .ok "false"
  | .null => .error (.typeError "Cannot read properties of null (reading 'toString')")
  | .undefined =>
    .error (.typeError "Cannot read properties of undefined (reading 'toString')")
  | .object o =>
    if o.keys.contains "toString" then
      .error (.typeError (name ++ ".toString is not a function"))
    else .ok "[object Object]"

/-- Whether `JSON.stringify` meets a circular object in an atom. -/
def Atom.circular : Atom → Bool
  | .object o => o.circular
  | _ => false

/-- Whether `JSON.stringify` meets a circular object in a parameter value. -/
def Value.circular : Value → Bool
  | .atom a => a.circular
  | .list items => items.any Atom.circular

/-! ## `generateSignature` -/

/-- Lines 19-22: the keys of `params`, sorted, assigned one by one to a fresh
object. -/
def sortedParams (params : JSObject Value) : JSObject Value :=
  (jsSort params.ownKeys).foldl
    (fun acc key => acc.set key ((params.get? key).getD (.atom .undefined))) JSObject.empty

/-- Lines 29-31: one `append` of `key[]` per item of an array value. -/
def appendItems (key : String) :
    List Atom → List (String × String) → Except JSError (List (String × String))
  | [], queryString => .ok queryString
  | item :: rest, queryString =>
    match item.toString "item" with
    | .error e => .error e
    | .ok s => appendItems key rest (queryString ++ [(key ++ "[]", s)])

/-- Lines 27-34: the body of the loop over the entries. -/
def appendParam (queryString : List (String × String)) (key : String) (value : Value) :
    Except JSError (List (String × String)) :=
  match value with
  | .list items => appendItems key items queryString
  | .atom a =>
    match a.toString "value" with
    | .error e => .error e
    | .ok s => .ok (queryString ++ [(key, s)])

/-- The loop over a list of entries, appending to a `URLSearchParams`. -/
def appendEntries :
    List (String × Value) → List (String × String) → Except JSError (List (String × String))
  | [], queryString => .ok queryString
  | (key, value) :: rest, queryString =>
    match appendParam queryString key value with
    | .error e => .error e
    | .ok queryString1 => appendEntries rest queryString1

/-- Lines 25-35: the `URLSearchParams` object `queryString`, as the list of the
pairs appended to it. -/
def queryString (params : JSObject Value) : Except JSError (List (String × String)) :=
  appendEntries (sortedParams params).entries []

/-- Line 36: `queryString.toString()`. -/
def queryStringStr (params : JSObject Value) : Except JSError String :=
  match queryString params with
  | .error e => .error e
  | .ok pairs => .ok (serialize pairs)

/-- Line 39 (and line 73): the path with the version prefix. -/
def signaturePath (path : String) : String :=
  if startsWith path "/v9" then path else "/v9" ++ path

/-- Lines 18-47: the string to sign. -/
def stringToSign (unicodeUpper : Char → List Char) (method path : String)
    (params : JSObject Value) : Except JSError String :=
  match queryStringStr params with
  | .error e => .error e
  | .ok q =>
    let s := toUpperCase unicodeUpper method ++ " api.ticketevolution.com" ++ signaturePath path
    if q ≠ "" then .ok (s ++ "?" ++ q) else .ok (s ++ "?")

/-- Line 53: `JSON.stringify(params)` inside the debug logging, which throws on
a circular structure; the text it returns is only printed. -/
def stringifyParams (params : JSObject Value) : Except JSError Unit :=
  if params.props.any (fun p => p.2.circular) then
    .error (.typeError "Converting circular structure to JSON")
  else .ok ()

/-- A configured credential: the constructor default `null`, `undefined`, or
a string. -/
inductive Credential where
  | null
  | undefined
  | str (s : String)
deriving DecidableEq

/-- The truthiness test `!c`. -/
def Credential.falsy : Credential → Bool
  | .null => true
  | .undefined => true
  | .str s => s == ""

/-- Lines 58-60: `crypto.createHmac('sha256', key)`, `update`, `digest('base64')`.
The key is validated by the library, which accepts any string; the digest
itself, `hmacSha256Base64 key message`, is a parameter. -/
def createHmac (hmacSha256Base64 : String → String → String) (key : Credential)
    (message : String) : Except JSError String :=
  match key with
  | .null => .error (.typeError
      "The \"key\" argument must be of type string or an instance of ArrayBuffer, Buffer, TypedArray, DataView, KeyObject, or CryptoKey. Received null")
  | .undefined => .error (.typeError
      "The \"key\" argument must be of type string or an instance of ArrayBuffer, Buffer, TypedArray, DataView, KeyObject, or CryptoKey. Received undefined")
  | .str k => .ok (hmacSha256Base64 k message)

/-- Lines 17-65: `generateSignature(method, path, params)` on an instance whose
secret is `secret`. Of the debug logging only what can throw is kept. -/
def generateSignature (unicodeUpper : Char → List Char)
    (hmacSha256Base64 : String → String → String) (secret : Credential)
    (method path : String) (params : JSObject Value) : Except JSError String :=
  match stringToSign unicodeUpper method path params with
  | .error e => .error e
  | .ok s =>
    match stringifyParams params with
    | .error e => .error e
    | .ok _ => createHmac hmacSha256Base64 secret s

/-! ## `makeRequest` -/

/-- The field `baseUrl` set by the constructor. -/
def baseUrl : String := "https://api.ticketevolution.com/v9"

/-- Line 76: the path appended to `baseUrl`. -/
def urlPath (path : String) : String :=
  if startsWith path "/v9" then substring path 3 else path

/-- The message of the error thrown at line 69. -/
def credentialsMessage : String := "Ticket Evolution API token and secret must be configured."

/-- Lines 84-94: the items of one array value, stored in `formattedParams`
under `key[]`. -/
def formatItems (key : String) :
    List Atom → JSObject Value → Except JSError (JSObject Value)
  | [], formattedParams => .ok formattedParams
  | item :: rest, formattedParams =>
    let arrayKey := key ++ "[]"
    if formattedParams.has arrayKey then
      let wrapped :=
        match formattedParams.get? arrayKey with
        | some (.atom a) => formattedParams.set arrayKey (.list [a])
        | _ => formattedParams
      match item.toString "item" with
      | .error e => .error e
      | .ok s =>
        match wrapped.get? arrayKey with
        | some (.list items) =>
          formatItems key rest (wrapped.set arrayKey (.list (items ++ [.str s])))
        | _ => formatItems key rest wrapped
    else
      match item.toString "item" with
      | .error e => .error e
      | .ok s => formatItems key rest (formattedParams.set arrayKey (.atom (.str s)))

/-- Lines 81-98: the loop that fills `formattedParams`. -/
def formatEntries :
    List (String × Value) → JSObject Value → Except JSError (JSObject Value)
  | [], formattedParams => .ok formattedParams
  | (key, .list items) :: rest, formattedParams =>
    match formatItems key items formattedParams with
    | .error e => .error e
    | .ok formattedParams1 => formatEntries rest formattedParams1
  | (key, .atom a) :: rest, formattedParams =>
    formatEntries rest (formattedParams.set key (.atom a))

/-- Lines 79-99: `formattedParams`; `params` is `none` when it is `null`. -/
def formattedParams (params : Option (JSObject Value)) : Except JSError (JSObject Value) :=
  match params with
  | none => .ok JSObject.empty
  | some p => formatEntries p.entries JSObject.empty

/-- The second argument of `fetch`. -/
structure RequestInit where
  method : String
  headers : List (String × String)
  body : Option String
deriving DecidableEq

/-- What the program reads from a `fetch` response: `ok`, `status`, and the
outcomes of `json()` and of `text()`. -/
structure Response (J : Type) where
  ok : Bool
  status : Nat
  json : Except JSError J
  text : Except JSError String

/-- The environment of a request: the upper-case table of the run-time, the
digest used for signing, the truthiness of a request body, `JSON.stringify` on
a request body (which may throw, or return `undefined`, here `none`), the
remote service behind `fetch`, and the text of
`errorData.error || JSON.stringify(errorData)` (`none` when reading `.error`
throws). -/
structure Env (J B : Type) where
  unicodeUpper : Char → List Char
  hmacSha256Base64 : String → String → String
  truthy : B → Bool
  stringify : B → Except JSError (Option String)
  fetch : String → RequestInit → Except JSError (Response J)
  errorText : J → Option String

/-- The test `if (body)`; `body` is `none` when it is `null` or `undefined`. -/
def bodyGiven {J B : Type} (env : Env J B) (body : Option B) : Bool :=
  match body with
  | none => false
  | some b => env.truthy b

/-- Lines 119-121: the `body` member of the options. -/
def requestBody {J B : Type} (env : Env J B) (body : Option B) :
    Except JSError (Option String) :=
  match body with
  | none => .ok none
  | some b => if env.truthy b then env.stringify b else .ok none

/-- The result of a call together with what it did: the signatures computed
and the HTTP calls issued. -/
structure Outcome (J : Type) where
  result : Except JSError J
  signatures : List String
  calls : List (String × RequestInit)

/-- The conversion of a credential to a header value. -/
def Credential.toText : Credential → String
  | .null => "null"
  | .undefined => "undefined"
  | .str s => s

/-- Lines 141-147: the message built for a response that is not `ok`. -/
def errorMessage {J B : Type} (env : Env J B) (response : Response J) :
    Except JSError String :=
  match response.json with
  | .ok errorData =>
    match env.errorText errorData with
    | some t => .ok ("API error: " ++ t)
    | none =>
      match response.text with
      | .error e => .error e
      | .ok t => .ok ("API error: " ++ t)
  | .error _ =>
    match response.text with
    | .error e => .error e
    | .ok t => .ok ("API error: " ++ t)

/-- Lines 140-151: what the `try` block does with a response. -/
def readResponse {J B : Type} (env : Env J B) (response : Response J) : Except JSError J :=
  if !response.ok then
    match errorMessage env response with
    | .error e => .error e
    | .ok m => .error (.error m)
  else response.json

/-- Lines 123-138: the URL handed to `fetch`. -/
def requestUrl (unicodeUpper : Char → List Char) (method url : String)
    (params : Option (JSObject Value)) : Except JSError String :=
  match params with
  | some p =>
    if toUpperCase unicodeUpper method = "GET" then
      match appendEntries p.entries [] with
      | .error e => .error e
      | .ok queryParams => .ok (url ++ "?" ++ serialize queryParams)
    else .ok url
  | none => .ok url

/-- Lines 152-154: the `catch` clause. -/
def rethrow {J : Type} (r : Except JSError J) : Except JSError J :=
  match r with
  | .ok j => .ok j
  | .error e => .error (.error ("API request failed: " ++ e.message))

/-- Lines 67-155: `makeRequest(method, path, params, body)` on an instance with
the given token and secret; `params` is an object, or `none` when `null`. -/
def makeRequest {J B : Type} (env : Env J B) (token secret : Credential)
    (method path : String) (params : Option (JSObject Value)) (body : Option B) : Outcome J :=
  if token.falsy || secret.falsy then
    ⟨.error (.error credentialsMessage), [], []⟩
  else
    match formattedParams params with
    | .error e => ⟨.error e, [], []⟩
    | .ok _ =>
      let url := baseUrl ++ urlPath path
      match generateSignature env.unicodeUpper env.hmacSha256Base64 secret method
          (signaturePath path) (params.getD JSObject.empty) with
      | .error e => ⟨.error e, [], []⟩
      | .ok signature =>
        let headers :=
          [("X-Token", token.toText), ("X-Signature", signature),
            ("Accept", "application/json")] ++
          (if bodyGiven env body then [("Content-Type", "application/json")] else [])
        match requestBody env body with
        | .error e => ⟨rethrow (.error e), [signature], []⟩
        | .ok bodyText =>
          let options : RequestInit :=
            ⟨toUpperCase env.unicodeUpper method, headers, bodyText⟩
          match requestUrl env.unicodeUpper method url params with
          | .error e => ⟨rethrow (.error e), [signature], []⟩
          | .ok target =>
            match env.fetch target options with
            | .error e => ⟨rethrow (.error e), [signature], [(target, options)]⟩
            | .ok response =>
              ⟨rethrow (readResponse env response), [signature], [(target, options)]⟩

/-! ## Vocabulary of the statements -/

/-- The atoms on which `toString()` returns: neither `null` nor `undefined`
nor an object with an own property `toString`. -/
def Atom.hasText : Atom → Bool
  | .null => false
  | .undefined => false
  | .object o => !o.keys.contains "toString"
  | _ => true

/-- A value on which, and on whose items, `toString()` returns. -/
def Value.hasText : Value → Bool
  | .atom a => a.hasText
  | .list items => items.all Atom.hasText

/-- A string of ASCII characters, as the names of HTTP methods are. -/
def isAscii (s : String) : Prop := ∀ c ∈ s.data, c.toNat < 128

instance (s : String) : Decidable (isAscii s) :=
  inferInstanceAs (Decidable (∀ c ∈ s.data, c.toNat < 128))

/-- A character `d` is the upper-case form of the ASCII character `c`: the
capital of a letter `a`-`z`, 32 code points below it, and `c` itself
otherwise. -/
def IsUpperOf (c d : Char) : Prop :=
  if 97 ≤ c.toNat ∧ c.toNat ≤ 122 then d.toNat + 32 = c.toNat else d = c

/-- A value of the data model: a scalar or a list of scalars. -/
def Value.isData : Value → Bool
  | .atom a => a.isScalar
  | .list items => items.all Atom.isScalar

/-- The text of an atom on which `toString()` returns. -/
def Atom.text : Atom → String
  | .str s => s
  | .num x => numberToString x
  | .bool true => "true"
  | .bool false => "false"
  | .object _ => "[object Object]"
  | _ => ""

/-- The name-value pairs one parameter stands for: `key` with the text of an
atom, or `key[]` with the text of each item of a list, in the order of the
list. -/
def valuePairs (key : String) : Value → List (String × String)
  | .atom a => [(key, a.text)]
  | .list items => items.map (fun a => (key ++ "[]", a.text))

/-- The number of pairs a value of the data model stands for: one for a
scalar, one per item for a list. -/
def Value.pairCount : Value → Nat
  | .atom _ => 1
  | .list items => items.length

/-! ## The sort order -/

theorem unitsLE_refl (a : List Nat) : unitsLE a a = true := by
  induction a with
  | nil => rfl
  | cons x xs ih => simp [unitsLE, ih]

theorem unitsLE_total (a b : List Nat) : unitsLE a b = true ∨ unitsLE b a = true := by
  induction a generalizing b with
  | nil => left; rfl
  | cons x xs ih =>
    cases b with
    | nil => right; rfl
    | cons y ys =>
      rcases Nat.lt_trichotomy x y with h | h | h
      · left; simp [unitsLE, h]
      · subst h; simpa [unitsLE] using ih ys
      · right; simp [unitsLE, h]

theorem unitsLE_antisymm (a b : List Nat) (h1 : unitsLE a b = true) (h2 : unitsLE b a = true) :
    a = b := by
  induction a generalizing b with
  | nil =>
    cases b with
    | nil => rfl
    | cons y ys => simp [unitsLE] at h2
  | cons x xs ih =>
    cases b with
    | nil => simp [unitsLE] at h1
    | cons y ys =>
      rcases Nat.lt_trichotomy x y with h | h | h
      · have h3 : ¬ y < x := by omega
        simp [unitsLE, h, h3] at h2
      · subst h
        simp [unitsLE] at h1 h2
        rw [ih ys h1 h2]
      · have h3 : ¬ x < y := by omega
        simp [unitsLE, h, h3] at h1

theorem unitsLE_trans (a b c : List Nat) (h1 : unitsLE a b = true) (h2 : unitsLE b c = true) :
    unitsLE a c = true := by
  induction a generalizing b c with
  | nil => rfl
  | cons x xs ih =>
    cases b with
    | nil => simp [unitsLE] at h1
    | cons y ys =>
      cases c with
      | nil => simp [unitsLE] at h2
      | cons z zs =>
        rcases Nat.lt_trichotomy x y with h | h | h
        · rcases Nat.lt_trichotomy y z with g | g | g
          · have : x < z := by omega
            simp [unitsLE, this]
          · subst g; simp [unitsLE, h]
          · have g3 : ¬ y < z := by omega
            simp [unitsLE, g, g3] at h2
        · subst h
          rcases Nat.lt_trichotomy x z with g | g | g
          · simp [unitsLE, g]
          · subst g
            simp [unitsLE] at h1 h2 ⊢
            exact ih ys zs h1 h2
          · have g3 : ¬ x < z := by omega
            simp [unitsLE, g, g3] at h2
        · have h3 : ¬ x < y := by omega
          simp [unitsLE, h, h3] at h1

theorem char_range (c : Char) : c.toNat < 0xD800 ∨ (0xDFFF < c.toNat ∧ c.toNat < 0x110000) :=
  c.valid

theorem char_eq_of_toNat_eq {c d : Char} (h : c.toNat = d.toNat) : c = d := by
  apply Char.ext
  apply UInt32.ext
  exact h

theorem unitsOfChars_injective (cs ds : List Char) (h : unitsOfChars cs = unitsOfChars ds) :
    cs = ds := by
  induction cs generalizing ds with
  | nil =>
    cases ds with
    | nil => rfl
    | cons d ds =>
      simp only [unitsOfChars, utf16Units] at h
      split at h <;> simp at h
  | cons c cs ih =>
    cases ds with
    | nil =>
      simp only [unitsOfChars, utf16Units] at h
      split at h <;> simp at h
    | cons d ds =>
      have hc := char_range c
      have hd := char_range d
      simp only [unitsOfChars, utf16Units] at h
      split at h <;> split at h
      · simp at h
        rw [char_eq_of_toNat_eq h.1, ih ds h.2]
      · simp at h
        omega
      · simp at h
        omega
      · simp at h
        have : c.toNat = d.toNat := by omega
        rw [char_eq_of_toNat_eq this, ih ds h.2.2]

theorem codeUnits_injective (a b : String) (h : codeUnits a = codeUnits b) : a = b := by
  cases a with
  | mk as =>
    cases b with
    | mk bs =>
      have := unitsOfChars_injective as bs h
      rw [this]

theorem keyLE_total : IsTotal String keyLE :=
  ⟨fun a b => unitsLE_total (codeUnits a) (codeUnits b)⟩

theorem keyLE_trans : IsTrans String keyLE :=
  ⟨fun a b c h1 h2 => unitsLE_trans (codeUnits a) (codeUnits b) (codeUnits c) h1 h2⟩

theorem keyLE_antisymm : IsAntisymm String keyLE :=
  ⟨fun a b h1 h2 => codeUnits_injective a b (unitsLE_antisymm _ _ h1 h2)⟩

theorem jsSort_sorted (keys : List String) : (jsSort keys).Sorted keyLE := by
  haveI := keyLE_total
  haveI := keyLE_trans
  exact List.sorted_insertionSort keyLE keys

theorem jsSort_perm (keys : List String) : (jsSort keys).Perm keys :=
  List.perm_insertionSort keyLE keys

theorem jsSort_eq_of_perm {ks ks2 : List String} (h : ks.Perm ks2) : jsSort ks = jsSort ks2 := by
  haveI := keyLE_antisymm
  exact List.eq_of_perm_of_sorted (((jsSort_perm ks).trans h).trans (jsSort_perm ks2).symm)
    (jsSort_sorted ks) (jsSort_sorted ks2)

/-! ## Order independence -/

theorem find?_key_perm {V : Type} {l l2 : List (String × V)} (h : l.Perm l2)
    (nd : (l.map Prod.fst).Nodup) (key : String) :
    l.find? (fun p => p.1 == key) = l2.find? (fun p => p.1 == key) := by
  induction h with
  | nil => rfl
  | cons x _ ih =>
    simp only [List.map_cons, List.nodup_cons] at nd
    simp only [List.find?_cons]
    split
    · rfl
    · exact ih nd.2
  | swap x y l =>
    simp only [List.map_cons, List.nodup_cons, List.mem_cons, not_or] at nd
    simp only [List.find?_cons]
    by_cases hx : (x.1 == key) = true <;> by_cases hy : (y.1 == key) = true
    · exfalso
      have h1 : x.1 = key := by simpa using hx
      have h2 : y.1 = key := by simpa using hy
      exact nd.1.1 (h2.trans h1.symm)
    · simp [hx, hy]
    · simp [hx, hy]
    · simp [hx, hy]
  | trans h1 _ ih1 ih2 =>
    exact (ih1 nd).trans (ih2 ((h1.map Prod.fst).nodup_iff.1 nd))

theorem get?_perm {V : Type} {o o2 : JSObject V} (h : o.props.Perm o2.props)
    (wf : o.WellFormed) (key : String) : o.get? key = o2.get? key := by
  unfold JSObject.get?
  rw [find?_key_perm h wf key]

theorem ownKeys_perm {V : Type} {o o2 : JSObject V} (h : o.props.Perm o2.props) :
    o.ownKeys.Perm o2.ownKeys := by
  unfold JSObject.ownKeys
  have hk : (o.props.map Prod.fst).Perm (o2.props.map Prod.fst) := h.map Prod.fst
  refine List.Perm.append ?_ (hk.filter _)
  exact ((List.perm_insertionSort _ _).trans (hk.filter _)).trans
    (List.perm_insertionSort _ _).symm

theorem sortedParams_perm {P P2 : JSObject Value} (h : P.props.Perm P2.props)
    (wf : P.WellFormed) : sortedParams P = sortedParams P2 := by
  unfold sortedParams
  rw [jsSort_eq_of_perm (ownKeys_perm h)]
  have hf : (fun (acc : JSObject Value) key =>
      acc.set key ((P.get? key).getD (.atom .undefined))) =
      (fun acc key => acc.set key ((P2.get? key).getD (.atom .undefined))) := by
    funext acc key
    rw [get?_perm h wf key]
  rw [hf]

theorem stringifyParams_perm {P P2 : JSObject Value} (h : P.props.Perm P2.props) :
    stringifyParams P = stringifyParams P2 := by
  unfold stringifyParams
  have : P.props.any (fun p => p.2.circular) = P2.props.any (fun p => p.2.circular) := by
    rw [Bool.eq_iff_iff]
    simp only [List.any_eq_true]
    constructor
    · rintro ⟨x, hx, hc⟩
      exact ⟨x, h.mem_iff.1 hx, hc⟩
    · rintro ⟨x, hx, hc⟩
      exact ⟨x, h.mem_iff.2 hx, hc⟩
  rw [this]

/-- C1: for every method, path, secret and every duplicate-free parameter
mapping `P`, a mapping `P2` holding the same properties in another order gives
the same string to sign and the same signature. -/
theorem generateSignature_order_independent (unicodeUpper : Char → List Char)
    (hmacSha256Base64 : String → String → String)
    (secret : Credential) (method path : String) (P P2 : JSObject Value)
    (wf : P.WellFormed) (h : P.props.Perm P2.props) :
    stringToSign unicodeUpper method path P2 = stringToSign unicodeUpper method path P ∧
      generateSignature unicodeUpper hmacSha256Base64 secret method path P2 =
        generateSignature unicodeUpper hmacSha256Base64 secret method path P := by
  have hs : sortedParams P = sortedParams P2 := sortedParams_perm h wf
  have hq : stringToSign unicodeUpper method path P2 =
      stringToSign unicodeUpper method path P := by
    unfold stringToSign queryStringStr queryString
    rw [hs]
  refine ⟨hq, ?_⟩
  unfold generateSignature
  rw [hq, stringifyParams_perm h]

theorem generateSignature_order_independent_witness :
    stringToSign (fun c => [c]) "GET" "/events/search"
        ⟨[("page", .atom (.num (.int 1 (by decide)))), ("q", .atom (.str "foo")),
          ("10", .list [.bool true])]⟩ =
      stringToSign (fun c => [c]) "GET" "/events/search"
        ⟨[("q", .atom (.str "foo")), ("10", .list [.bool true]),
          ("page", .atom (.num (.int 1 (by decide))))]⟩ ∧
    generateSignature (fun c => [c]) (fun k m => k ++ m) (.str "shh") "GET" "/events/search"
        ⟨[("page", .atom (.num (.int 1 (by decide)))), ("q", .atom (.str "foo")),
          ("10", .list [.bool true])]⟩ =
      generateSignature (fun c => [c]) (fun k m => k ++ m) (.str "shh") "GET" "/events/search"
        ⟨[("q", .atom (.str "foo")), ("10", .list [.bool true]),
          ("page", .atom (.num (.int 1 (by decide))))]⟩ :=
  generateSignature_order_independent (fun c => [c]) (fun k m => k ++ m) (.str "shh") "GET"
    "/events/search"
    ⟨[("q", .atom (.str "foo")), ("10", .list [.bool true]),
      ("page", .atom (.num (.int 1 (by decide))))]⟩
    ⟨[("page", .atom (.num (.int 1 (by decide)))), ("q", .atom (.str "foo")),
      ("10", .list [.bool true])]⟩
    (by decide) (by decide)

/-! ## Properties of objects -/

theorem mem_of_get? {V : Type} {o : JSObject V} {key : String} {v : V}
    (h : o.get? key = some v) : (key, v) ∈ o.props := by
  unfold JSObject.get? at h
  split at h
  · rename_i p hp
    have h1 := List.find?_some hp
    have h2 := List.mem_of_find?_eq_some hp
    simp only [beq_iff_eq] at h1
    simp only [Option.some.injEq] at h
    have : p = (key, v) := by
      cases p
      simp_all
    rw [← this]
    exact h2
  · cases h

theorem get?_of_mem {V : Type} {o : JSObject V} (wf : o.WellFormed) {key : String} {v : V}
    (h : (key, v) ∈ o.props) : o.get? key = some v := by
  cases o with
  | mk props =>
    unfold JSObject.WellFormed at wf
    unfold JSObject.get?
    simp only at wf h ⊢
    induction props with
    | nil => cases h
    | cons x xs ih =>
      simp only [List.map_cons, List.nodup_cons] at wf
      simp only [List.find?_cons]
      rcases List.mem_cons.1 h with hx | hx
      · subst hx
        simp
      · have hne : (x.1 == key) = false := by
          apply beq_false_of_ne
          intro he
          apply wf.1
          rw [he]
          exact List.mem_map_of_mem Prod.fst hx
        rw [hne]
        exact ih wf.2 hx

theorem ownKeys_perm_keys {V : Type} (o : JSObject V) :
    o.ownKeys.Perm (o.props.map Prod.fst) := by
  unfold JSObject.ownKeys
  refine ((List.perm_insertionSort _ _).append (List.Perm.refl _)).trans ?_
  exact List.filter_append_perm isIndexKey (o.props.map Prod.fst)

theorem mem_ownKeys {V : Type} (o : JSObject V) (key : String) :
    key ∈ o.ownKeys ↔ key ∈ o.props.map Prod.fst :=
  (ownKeys_perm_keys o).mem_iff

theorem ownKeys_nodup {V : Type} {o : JSObject V} (wf : o.WellFormed) : o.ownKeys.Nodup :=
  (ownKeys_perm_keys o).nodup_iff.2 wf

theorem entries_subset {V : Type} {o : JSObject V} {e : String × V} (h : e ∈ o.entries) :
    e ∈ o.props := by
  unfold JSObject.entries at h
  rcases List.mem_filterMap.1 h with ⟨k, _, hk⟩
  cases hg : o.get? k with
  | none => simp [hg] at hk
  | some v =>
    simp only [hg, Option.map_some', Option.some.injEq] at hk
    rw [← hk]
    exact mem_of_get? hg

theorem mem_entries {V : Type} {o : JSObject V} (wf : o.WellFormed) {e : String × V}
    (h : e ∈ o.props) : e ∈ o.entries := by
  unfold JSObject.entries
  refine List.mem_filterMap.2 ⟨e.1, ?_, ?_⟩
  · exact (mem_ownKeys o e.1).2 (List.mem_map_of_mem Prod.fst h)
  · have : o.get? e.1 = some e.2 := get?_of_mem wf (by simpa using h)
    simp [this]

/-- Assigning the keys of a duplicate-free list, none of them present yet,
creates the properties in the order of the list, `__proto__` left out. -/
theorem foldl_set_props {V : Type} (f : String → V) (keys : List String)
    (acc : JSObject V) (nd : keys.Nodup)
    (fresh : ∀ k ∈ keys, k ∉ acc.props.map Prod.fst) :
    (keys.foldl (fun acc key => acc.set key (f key)) acc).props =
      acc.props ++ (keys.filter (fun k => k != "__proto__")).map (fun k => (k, f k)) := by
  induction keys generalizing acc with
  | nil => simp
  | cons k ks ih =>
    simp only [List.nodup_cons] at nd
    simp only [List.foldl_cons]
    by_cases hp : k = "__proto__"
    · have hset : acc.set k (f k) = acc := by simp [JSObject.set, hp]
      rw [hset, ih acc nd.2 (fun x hx => fresh x (List.mem_cons_of_mem _ hx))]
      simp [List.filter_cons, hp]
    · have hnew : acc.props.any (fun p => p.1 == k) = false := by
        have := fresh k (List.mem_cons_self _ _)
        simp only [List.mem_map, not_exists, not_and] at this
        simp only [List.any_eq_false, beq_iff_eq]
        intro x hx he
        exact this x hx he
      have hset : acc.set k (f k) = ⟨acc.props ++ [(k, f k)]⟩ := by
        simp [JSObject.set, hp, hnew]
      rw [hset, ih _ nd.2 ?_]
      · simp [List.filter_cons, hp]
      · intro x hx
        simp only [List.map_append, List.map_cons, List.map_nil, List.mem_append,
          List.mem_singleton, not_or]
        refine ⟨fresh x (List.mem_cons_of_mem _ hx), ?_⟩
        intro he
        apply nd.1
        rw [← he]
        exact hx

theorem sortedParams_props {P : JSObject Value} (wf : P.WellFormed) :
    (sortedParams P).props =
      ((jsSort P.ownKeys).filter (fun k => k != "__proto__")).map
        (fun k => (k, (P.get? k).getD (.atom .undefined))) := by
  unfold sortedParams
  have nd : (jsSort P.ownKeys).Nodup := (jsSort_perm _).nodup_iff.2 (ownKeys_nodup wf)
  have := foldl_set_props (fun k => (P.get? k).getD (.atom .undefined)) (jsSort P.ownKeys)
    JSObject.empty nd (by simp [JSObject.empty])
  simpa [JSObject.empty] using this

theorem sortedParams_wf {P : JSObject Value} (wf : P.WellFormed) :
    (sortedParams P).WellFormed := by
  unfold JSObject.WellFormed
  rw [sortedParams_props wf, List.map_map]
  have : (Prod.fst ∘ fun k => (k, (P.get? k).getD (Value.atom Atom.undefined))) = id := by
    funext k; rfl
  rw [this, List.map_id]
  exact ((jsSort_perm _).nodup_iff.2 (ownKeys_nodup wf)).filter _

theorem mem_sortedParams {P : JSObject Value} (wf : P.WellFormed) {key : String} {v : Value}
    (h : (key, v) ∈ P.props) (hp : key ≠ "__proto__") : (key, v) ∈ (sortedParams P).props := by
  rw [sortedParams_props wf]
  refine List.mem_map.2 ⟨key, ?_, ?_⟩
  · refine List.mem_filter.2 ⟨?_, by simpa using hp⟩
    exact (jsSort_perm _).mem_iff.2 ((mem_ownKeys P key).2 (List.mem_map_of_mem Prod.fst h))
  · rw [get?_of_mem wf h]
    rfl

theorem of_mem_sortedParams {P : JSObject Value} (wf : P.WellFormed) {key : String}
    {v : Value} (h : (key, v) ∈ (sortedParams P).props) :
    (key, v) ∈ P.props ∧ key ≠ "__proto__" := by
  rw [sortedParams_props wf] at h
  rcases List.mem_map.1 h with ⟨k, hk, he⟩
  rcases List.mem_filter.1 hk with ⟨hk1, hk2⟩
  have hk3 : k ∈ P.props.map Prod.fst := (mem_ownKeys P k).1 ((jsSort_perm _).mem_iff.1 hk1)
  rcases List.mem_map.1 hk3 with ⟨⟨k2, v2⟩, hm, hk4⟩
  simp only at hk4
  subst hk4
  rw [get?_of_mem wf hm] at he
  simp only [Option.getD_some, Prod.mk.injEq] at he
  rw [← he.1, ← he.2]
  exact ⟨hm, by simpa using hk2⟩

theorem mem_entries_sortedParams {P : JSObject Value} (wf : P.WellFormed) {key : String}
    {v : Value} (h : (key, v) ∈ P.props) (hp : key ≠ "__proto__") :
    (key, v) ∈ (sortedParams P).entries :=
  mem_entries (sortedParams_wf wf) (mem_sortedParams wf h hp)

theorem of_mem_entries_sortedParams {P : JSObject Value} (wf : P.WellFormed) {key : String}
    {v : Value} (h : (key, v) ∈ (sortedParams P).entries) :
    (key, v) ∈ P.props ∧ key ≠ "__proto__" :=
  of_mem_sortedParams wf (entries_subset h)

/-! ## The query string -/

theorem toString_of_hasText (name : String) {a : Atom} (h : a.hasText = true) :
    a.toString name = .ok a.text := by
  cases a with
  | bool b => cases b <;> rfl
  | null => cases h
  | undefined => cases h
  | str s => rfl
  | num n => rfl
  | object o =>
    have hk : "toString" ∉ o.keys := by simpa [Atom.hasText] using h
    simp [Atom.toString, Atom.text, hk]

theorem hasText_of_isScalar {a : Atom} (h : a.isScalar = true) : a.hasText = true := by
  cases a <;> first | rfl | cases h

theorem hasText_of_isData {v : Value} (h : v.isData = true) : v.hasText = true := by
  cases v with
  | atom a => exact hasText_of_isScalar h
  | list items =>
    simp only [Value.isData, List.all_eq_true] at h
    simp only [Value.hasText, List.all_eq_true]
    exact fun a ha => hasText_of_isScalar (h a ha)

theorem not_circular_of_isScalar {a : Atom} (h : a.isScalar = true) : a.circular = false := by
  cases a <;> first | rfl | cases h

theorem not_circular_of_isData {v : Value} (h : v.isData = true) : v.circular = false := by
  cases v with
  | atom a => exact not_circular_of_isScalar h
  | list items =>
    simp only [Value.isData, List.all_eq_true] at h
    simp only [Value.circular, List.any_eq_false]
    intro a ha
    simp [not_circular_of_isScalar (h a ha)]

theorem toString_error {name : String} {a : Atom} {e : JSError}
    (h : a.toString name = .error e) : ∃ m, e = .typeError m := by
  cases a with
  | bool b => cases b <;> cases h
  | null => cases h; exact ⟨_, rfl⟩
  | undefined => cases h; exact ⟨_, rfl⟩
  | str s => cases h
  | num n => cases h
  | object o =>
    simp only [Atom.toString] at h
    split at h
    · cases h; exact ⟨_, rfl⟩
    · cases h

theorem appendItems_ok (key : String) (items : List Atom) (qs : List (String × String))
    (h : ∀ a ∈ items, a.hasText = true) :
    appendItems key items qs = .ok (qs ++ items.map (fun a => (key ++ "[]", a.text))) := by
  induction items generalizing qs with
  | nil => simp [appendItems]
  | cons a rest ih =>
    simp only [appendItems, toString_of_hasText "item" (h a (List.mem_cons_self _ _))]
    rw [ih _ (fun b hb => h b (List.mem_cons_of_mem _ hb))]
    simp

theorem appendItems_error {key : String} {items : List Atom} {qs : List (String × String)}
    {e : JSError} (h : appendItems key items qs = .error e) : ∃ m, e = .typeError m := by
  induction items generalizing qs with
  | nil => simp [appendItems] at h
  | cons a rest ih =>
    simp only [appendItems] at h
    split at h
    · rename_i e2 he
      cases h
      exact toString_error he
    · exact ih h

theorem appendParam_ok (qs : List (String × String)) (key : String) (value : Value)
    (h : value.hasText = true) : appendParam qs key value = .ok (qs ++ valuePairs key value) := by
  cases value with
  | atom a =>
    simp only [appendParam, @toString_of_hasText "value" a h, valuePairs]
  | list items =>
    simp only [Value.hasText, List.all_eq_true] at h
    simp only [appendParam, valuePairs]
    exact appendItems_ok key items qs h

theorem appendParam_error {qs : List (String × String)} {key : String} {value : Value}
    {e : JSError} (h : appendParam qs key value = .error e) : ∃ m, e = .typeError m := by
  cases value with
  | atom a =>
    simp only [appendParam] at h
    split at h
    · rename_i e2 he
      cases h
      exact toString_error he
    · cases h
  | list items => exact appendItems_error h

theorem appendEntries_ok (es : List (String × Value)) (qs : List (String × String))
    (h : ∀ e ∈ es, e.2.hasText = true) :
    appendEntries es qs = .ok (qs ++ es.flatMap (fun e => valuePairs e.1 e.2)) := by
  induction es generalizing qs with
  | nil => simp [appendEntries]
  | cons e rest ih =>
    obtain ⟨k, v⟩ := e
    simp only [appendEntries, appendParam_ok qs k v (h (k, v) (List.mem_cons_self _ _))]
    rw [ih _ (fun b hb => h b (List.mem_cons_of_mem _ hb))]
    simp

theorem appendEntries_error {es : List (String × Value)} {qs : List (String × String)}
    {e : JSError} (h : appendEntries es qs = .error e) : ∃ m, e = .typeError m := by
  induction es generalizing qs with
  | nil => simp [appendEntries] at h
  | cons x rest ih =>
    obtain ⟨k, v⟩ := x
    simp only [appendEntries] at h
    split at h
    · rename_i e2 he
      cases h
      exact appendParam_error he
    · exact ih h

theorem queryString_ok {P : JSObject Value} (wf : P.WellFormed)
    (h : ∀ e ∈ P.props, e.1 ≠ "__proto__" → e.2.hasText = true) :
    queryString P = .ok ((sortedParams P).entries.flatMap (fun e => valuePairs e.1 e.2)) := by
  unfold queryString
  rw [appendEntries_ok]
  · simp
  · intro e he
    have := @of_mem_entries_sortedParams P wf e.1 e.2 he
    exact h e this.1 this.2

theorem stringToSign_error {unicodeUpper : Char → List Char} {method path : String}
    {P : JSObject Value} {e : JSError}
    (h : stringToSign unicodeUpper method path P = .error e) : ∃ m, e = .typeError m := by
  unfold stringToSign queryStringStr queryString at h
  split at h
  · rename_i e2 he
    split at he
    · rename_i e3 he3
      cases h
      cases he
      exact appendEntries_error he3
    · cases he
  · split at h <;> cases h

theorem stringifyParams_error {P : JSObject Value} {e : JSError}
    (h : stringifyParams P = .error e) : ∃ m, e = .typeError m := by
  unfold stringifyParams at h
  split at h
  · cases h; exact ⟨_, rfl⟩
  · cases h

theorem stringifyParams_ok {P : JSObject Value} (h : ∀ e ∈ P.props, e.2.circular = false) :
    stringifyParams P = .ok () := by
  unfold stringifyParams
  have : P.props.any (fun p => p.2.circular) = false := by
    simp only [List.any_eq_false]
    intro x hx
    simp [h x hx]
  simp [this]

theorem generateSignature_error {unicodeUpper : Char → List Char}
    {hmacSha256Base64 : String → String → String}
    {secret : Credential} {method path : String} {P : JSObject Value} {e : JSError}
    (h : generateSignature unicodeUpper hmacSha256Base64 secret method path P = .error e) :
    ∃ m, e = .typeError m := by
  unfold generateSignature at h
  split at h
  · rename_i e2 he
    cases h
    exact stringToSign_error he
  · split at h
    · rename_i e2 he
      cases h
      exact stringifyParams_error he
    · cases secret with
      | null => cases h; exact ⟨_, rfl⟩
      | undefined => cases h; exact ⟨_, rfl⟩
      | str k => cases h

/-! ## Claims about the query string -/

theorem entries_singleton (key : String) (v : Value) :
    (JSObject.mk [(key, v)]).entries = [(key, v)] := by
  by_cases h : isIndexKey key = true <;>
    simp [JSObject.entries, JSObject.ownKeys, JSObject.get?, h]

theorem sortedParams_singleton (key : String) (v : Value) (hp : key ≠ "__proto__") :
    sortedParams ⟨[(key, v)]⟩ = ⟨[(key, v)]⟩ := by
  have wf : (JSObject.mk [(key, v)]).WellFormed := by simp [JSObject.WellFormed]
  have h := sortedParams_props wf
  have hk : (JSObject.mk [(key, v)]).ownKeys = [key] := by
    by_cases h : isIndexKey key = true <;> simp [JSObject.ownKeys, h]
  rw [hk] at h
  simp [jsSort, hp, JSObject.get?] at h
  cases hs : sortedParams ⟨[(key, v)]⟩ with
  | mk props =>
    rw [hs] at h
    simp only at h
    rw [h]

/-- C2, as the code has it: in a duplicate-free mapping on whose values
`toString()` returns, a parameter `key: [v1, ..., vn]` with `key` other than
`__proto__` stands for the pairs `(key[], v1), ..., (key[], vn)`, adjacent and
in the order of the list, among the pairs appended; and the mapping with this
one parameter serialises to the form-encoded pairs
`E(key[])=E(v1)&...&E(key[])=E(vn)`, where `E` also encodes the brackets. -/
theorem array_parameter_pairs (P : JSObject Value) (wf : P.WellFormed) (key : String)
    (items : List Atom) (hmem : (key, Value.list items) ∈ P.props) (hp : key ≠ "__proto__")
    (hd : ∀ e ∈ P.props, e.2.hasText = true) :
    (∃ before after,
      queryString P =
        .ok (before ++ items.map (fun a => (key ++ "[]", a.text)) ++ after) ∧
      queryStringStr P =
        .ok (serialize (before ++ items.map (fun a => (key ++ "[]", a.text)) ++ after))) ∧
    queryStringStr ⟨[(key, .list items)]⟩ =
      .ok (joinWith "&"
        (items.map (fun a => formEncode (key ++ "[]") ++ "=" ++ formEncode a.text))) := by
  have hitems : (Value.list items).hasText = true := hd _ hmem
  constructor
  · have hq := queryString_ok wf (fun e he _ => hd e he)
    have hin := mem_entries_sortedParams wf hmem hp
    rcases List.append_of_mem hin with ⟨es1, es2, hes⟩
    refine ⟨es1.flatMap (fun e => valuePairs e.1 e.2),
      es2.flatMap (fun e => valuePairs e.1 e.2), ?_, ?_⟩
    · rw [hq, hes]
      simp [valuePairs]
    · unfold queryStringStr
      rw [hq, hes]
      simp [valuePairs]
  · unfold queryStringStr queryString
    rw [sortedParams_singleton key _ hp, entries_singleton]
    simp only [appendEntries, appendParam_ok [] key (.list items) hitems]
    simp [serialize, valuePairs, Function.comp_def]

theorem array_parameter_pairs_witness :
    (∃ before after,
      queryString ⟨[("q", .atom (.str "x y")),
          ("tags", .list [.str "a", .num (.int 2 (by decide))])]⟩ =
        .ok (before ++
          [Atom.str "a", Atom.num (.int 2 (by decide))].map
            (fun a => ("tags" ++ "[]", a.text)) ++ after) ∧
      queryStringStr ⟨[("q", .atom (.str "x y")),
          ("tags", .list [.str "a", .num (.int 2 (by decide))])]⟩ =
        .ok (serialize (before ++
          [Atom.str "a", Atom.num (.int 2 (by decide))].map
            (fun a => ("tags" ++ "[]", a.text)) ++ after))) ∧
    queryStringStr ⟨[("tags", .list [.str "a", .num (.int 2 (by decide))])]⟩ =
      .ok (joinWith "&" ([Atom.str "a", Atom.num (.int 2 (by decide))].map
        (fun a => formEncode ("tags" ++ "[]") ++ "=" ++ formEncode a.text))) :=
  array_parameter_pairs
    ⟨[("q", .atom (.str "x y")), ("tags", .list [.str "a", .num (.int 2 (by decide))])]⟩
    (by decide) "tags" [.str "a", .num (.int 2 (by decide))] (by decide) (by decide)
    (by decide)

/-- C2, as stated, fails: the list parameter `{tags: ["a","b"]}` gives the
query string `tags%5B%5D=a&tags%5B%5D=b`, not `tags[]=a&tags[]=b`. -/
theorem tags_brackets_are_encoded :
    queryStringStr ⟨[("tags", .list [.str "a", .str "b"])]⟩ =
      .ok "tags%5B%5D=a&tags%5B%5D=b" ∧
    queryStringStr ⟨[("tags", .list [.str "a", .str "b"])]⟩ ≠ .ok "tags[]=a&tags[]=b" := by
  decide

/-- C3 at the parameters `{"10": "a", "9": "b"}`: the key `10` sorts before
the key `9`, and the query string has the pair of `9` first. -/
theorem integer_keys_leave_sorted_order :
    keyLE "10" "9" ∧ ¬ keyLE "9" "10" ∧
    jsSort (JSObject.mk [("10", Value.atom (.str "a")), ("9", .atom (.str "b"))]).ownKeys =
      ["10", "9"] ∧
    queryString ⟨[("10", .atom (.str "a")), ("9", .atom (.str "b"))]⟩ =
      .ok [("9", "b"), ("10", "a")] ∧
    queryStringStr ⟨[("10", .atom (.str "a")), ("9", .atom (.str "b"))]⟩ = .ok "9=b&10=a" := by
  decide

/-- C9 at the parameters `{"__proto__": "x", "q": "foo"}` (two own
properties): the mapping has two scalar-valued keys and one pair is
emitted. -/
theorem proto_key_is_omitted :
    JSObject.WellFormed
      (JSObject.mk [("__proto__", Value.atom (.str "x")), ("q", .atom (.str "foo"))]) ∧
    queryString ⟨[("__proto__", .atom (.str "x")), ("q", .atom (.str "foo"))]⟩ =
      .ok [("q", "foo")] ∧
    queryStringStr ⟨[("__proto__", .atom (.str "x")), ("q", .atom (.str "foo"))]⟩ =
      .ok "q=foo" := by
  decide

/-! ## Upper case -/

theorem flatMap_upper_ascii (U : Char → List Char) (cs : List Char)
    (h : ∀ c ∈ cs, c.toNat < 128) :
    cs.flatMap (fun c => if c.toNat < 128 then [upperChar c] else U c) = cs.map upperChar := by
  induction cs with
  | nil => rfl
  | cons c cs ih =>
    simp only [List.flatMap_cons, h c (List.mem_cons_self _ _), ↓reduceIte, List.map_cons,
      List.singleton_append]
    rw [ih (fun d hd => h d (List.mem_cons_of_mem _ hd))]

theorem toUpperCase_ascii_data (U : Char → List Char) (s : String) (h : isAscii s) :
    (toUpperCase U s).data = s.data.map upperChar :=
  flatMap_upper_ascii U s.data h

theorem toUpperCase_ascii (U V : Char → List Char) (s : String) (h : isAscii s) :
    toUpperCase U s = toUpperCase V s := by
  apply String.ext
  rw [toUpperCase_ascii_data U s h, toUpperCase_ascii_data V s h]

theorem upperChar_toNat (c : Char) (h : 97 ≤ c.toNat ∧ c.toNat ≤ 122) :
    (upperChar c).toNat + 32 = c.toNat := by
  unfold upperChar
  simp only [h, and_self, ↓reduceIte]
  generalize c.toNat = n at h
  obtain ⟨h1, h2⟩ := h
  interval_cases n <;> rfl

theorem upperChar_isUpperOf (c : Char) : IsUpperOf c (upperChar c) := by
  unfold IsUpperOf
  by_cases h : 97 ≤ c.toNat ∧ c.toNat ≤ 122
  · simp only [h, and_self, ↓reduceIte]
    exact upperChar_toNat c h
  · simp [upperChar, h]

theorem upperChar_not_lower (c : Char) :
    ¬ (97 ≤ (upperChar c).toNat ∧ (upperChar c).toNat ≤ 122) := by
  by_cases h : 97 ≤ c.toNat ∧ c.toNat ≤ 122
  · have := upperChar_toNat c h
    omega
  · simp [upperChar, h]

theorem stringToSign_ascii (U V : Char → List Char) (method path : String)
    (P : JSObject Value) (h : isAscii method) :
    stringToSign U method path P = stringToSign V method path P := by
  unfold stringToSign
  rw [toUpperCase_ascii U V method h]

/-- C6: for `GET`, `/events/search` and `{q: "foo", page: 1}` the string to
sign is `GET api.ticketevolution.com/v9/events/search?page=1&q=foo`, and the
signature returned under a secret is the digest of that string under that
secret. -/
theorem worked_example (unicodeUpper : Char → List Char)
    (hmacSha256Base64 : String → String → String) (secret : String) :
    stringToSign unicodeUpper "GET" "/events/search"
        ⟨[("q", .atom (.str "foo")), ("page", .atom (.num (.int 1 (by decide))))]⟩ =
      .ok "GET api.ticketevolution.com/v9/events/search?page=1&q=foo" ∧
    generateSignature unicodeUpper hmacSha256Base64 (.str secret) "GET" "/events/search"
        ⟨[("q", .atom (.str "foo")), ("page", .atom (.num (.int 1 (by decide))))]⟩ =
      .ok (hmacSha256Base64 secret
        "GET api.ticketevolution.com/v9/events/search?page=1&q=foo") := by
  have h : stringToSign unicodeUpper "GET" "/events/search"
        ⟨[("q", .atom (.str "foo")), ("page", .atom (.num (.int 1 (by decide))))]⟩ =
      .ok "GET api.ticketevolution.com/v9/events/search?page=1&q=foo" := by
    rw [stringToSign_ascii unicodeUpper (fun c => [c]) "GET" _ _ (by decide)]
    decide
  refine ⟨h, ?_⟩
  unfold generateSignature
  rw [h]
  rfl

/-! ## Claims about the string to sign -/

theorem stringToSign_eq (unicodeUpper : Char → List Char) (method path : String)
    (P : JSObject Value) :
    stringToSign unicodeUpper method path P =
      match queryStringStr P with
      | .error e => .error e
      | .ok q =>
        .ok (toUpperCase unicodeUpper method ++ " api.ticketevolution.com" ++
          signaturePath path ++ "?" ++ q) := by
  unfold stringToSign
  cases queryStringStr P with
  | error e => rfl
  | ok q =>
    by_cases hq : q = ""
    · subst hq
      simp
    · simp [hq]

theorem flatMap_nil_of_forall {α β : Type} (f : α → List β) (l : List α)
    (h : ∀ a ∈ l, f a = []) : l.flatMap f = [] := by
  induction l with
  | nil => rfl
  | cons a rest ih =>
    simp only [List.flatMap_cons, h a (List.mem_cons_self _ _), List.nil_append]
    exact ih (fun b hb => h b (List.mem_cons_of_mem _ hb))

theorem queryStringStr_ok {P : JSObject Value} (wf : P.WellFormed)
    (h : ∀ e ∈ P.props, e.1 ≠ "__proto__" → e.2.hasText = true) :
    queryStringStr P =
      .ok (serialize ((sortedParams P).entries.flatMap (fun e => valuePairs e.1 e.2))) := by
  unfold queryStringStr
  rw [queryString_ok wf h]

theorem forall₂_map_upper (cs : List Char) : List.Forall₂ IsUpperOf cs (cs.map upperChar) := by
  induction cs with
  | nil => exact List.Forall₂.nil
  | cons c cs ih => exact List.Forall₂.cons (upperChar_isUpperOf c) ih

/-- C5: for every method, path and parameter mapping the string to sign is
the upper-cased method, a space, the host, the versioned path, `?` and the
query string, whenever the query string is built; the upper-cased form of an
ASCII method has no letter `a`-`z` left and is the method with each such letter
replaced by its capital; the query string is built for every duplicate-free
mapping of scalars and lists of scalars; and when every value is an empty list
(the empty mapping included) the query string is empty and the string to sign
ends in `?`. -/
theorem canonical_string_shape (unicodeUpper : Char → List Char) (method path : String)
    (P : JSObject Value) :
    (stringToSign unicodeUpper method path P =
      match queryStringStr P with
      | .error e => .error e
      | .ok q =>
        .ok (toUpperCase unicodeUpper method ++ " api.ticketevolution.com" ++
          signaturePath path ++ "?" ++ q))
    ∧
    (isAscii method →
      (∀ d ∈ (toUpperCase unicodeUpper method).data, ¬ (97 ≤ d.toNat ∧ d.toNat ≤ 122)) ∧
      List.Forall₂ IsUpperOf method.data (toUpperCase unicodeUpper method).data) ∧
    (P.WellFormed → (∀ e ∈ P.props, e.2.isData = true) →
      ∃ q, queryStringStr P = .ok q ∧
        stringToSign unicodeUpper method path P =
          .ok (toUpperCase unicodeUpper method ++ " api.ticketevolution.com" ++
            signaturePath path ++ "?" ++ q)) ∧
    (P.WellFormed → (∀ e ∈ P.props, e.2 = .list []) →
      queryStringStr P = .ok "" ∧
        stringToSign unicodeUpper method path P =
          .ok (toUpperCase unicodeUpper method ++ " api.ticketevolution.com" ++
            signaturePath path ++ "?")) := by
  refine ⟨stringToSign_eq unicodeUpper method path P, ?_, ?_, ?_⟩
  · intro hascii
    rw [toUpperCase_ascii_data unicodeUpper method hascii]
    refine ⟨?_, forall₂_map_upper _⟩
    intro d hd
    rcases List.mem_map.1 hd with ⟨c, _, hc⟩
    rw [← hc]
    exact upperChar_not_lower c
  · intro wf hdata
    have hq := queryStringStr_ok wf (fun e he _ => hasText_of_isData (hdata e he))
    refine ⟨_, hq, ?_⟩
    rw [stringToSign_eq, hq]
  · intro wf hempty
    have hq := queryStringStr_ok wf (fun e he _ => by rw [hempty e he]; rfl)
    have hnil : (sortedParams P).entries.flatMap (fun e => valuePairs e.1 e.2) = [] := by
      apply flatMap_nil_of_forall
      intro e he
      have := (@of_mem_entries_sortedParams P wf e.1 e.2 he).1
      rw [hempty _ this]
      rfl
    rw [hnil] at hq
    have hq2 : queryStringStr P = .ok "" := hq
    refine ⟨hq2, ?_⟩
    rw [stringToSign_eq, hq2]
    simp

theorem canonical_string_shape_witness :
    ((∀ d ∈ (toUpperCase (fun c => [c]) "get").data, ¬ (97 ≤ d.toNat ∧ d.toNat ≤ 122)) ∧
      List.Forall₂ IsUpperOf "get".data (toUpperCase (fun c => [c]) "get").data) ∧
    stringToSign (fun c => [c]) "get" "/events"
        ⟨[("q", .atom (.str "foo")), ("tags", .list [])]⟩ =
      .ok "GET api.ticketevolution.com/v9/events?q=foo" ∧
    (∃ q, queryStringStr ⟨[("q", .atom (.str "foo")), ("tags", .list [])]⟩ = .ok q ∧
      stringToSign (fun c => [c]) "get" "/events"
          ⟨[("q", .atom (.str "foo")), ("tags", .list [])]⟩ =
        .ok (toUpperCase (fun c => [c]) "get" ++ " api.ticketevolution.com" ++
          signaturePath "/events" ++ "?" ++ q)) ∧
    stringToSign (fun c => [c]) "get" "/events" ⟨[("tags", .list []), ("ids", .list [])]⟩ =
      .ok "GET api.ticketevolution.com/v9/events?" :=
  ⟨(canonical_string_shape (fun c => [c]) "get" "/events" ⟨[]⟩).2.1 (by decide),
    (canonical_string_shape (fun c => [c]) "get" "/events"
      ⟨[("q", .atom (.str "foo")), ("tags", .list [])]⟩).1.trans (by decide),
    (canonical_string_shape (fun c => [c]) "get" "/events"
      ⟨[("q", .atom (.str "foo")), ("tags", .list [])]⟩).2.2.1 (by decide) (by decide),
    ((canonical_string_shape (fun c => [c]) "get" "/events"
      ⟨[("tags", .list []), ("ids", .list [])]⟩).2.2.2 (by decide) (by decide)).2.trans
      (by decide)⟩

/-- C8, as the code has it: `generateSignature` never fails with an error of
the program's own (on the values of the model its only failures are
`TypeError`s of the run-time); and in a duplicate-free mapping on whose values
`toString()` returns and which holds no circular object, a nested plain object
under a key other than `__proto__` is signed as the pair of that key with the
text `[object Object]`. -/
theorem structured_values_are_stringified (unicodeUpper : Char → List Char)
    (hmacSha256Base64 : String → String → String)
    (secret : Credential) (method path : String) (P : JSObject Value) :
    (∀ msg, generateSignature unicodeUpper hmacSha256Base64 secret method path P ≠
      .error (.error msg)) ∧
    (P.WellFormed → (∀ e ∈ P.props, e.2.hasText = true) →
      (∀ e ∈ P.props, e.2.circular = false) →
      ∀ key o, (key, Value.atom (Atom.object o)) ∈ P.props → key ≠ "__proto__" →
        ∃ pairs, queryString P = .ok pairs ∧ (key, "[object Object]") ∈ pairs ∧
          ∀ k, generateSignature unicodeUpper hmacSha256Base64 (.str k) method path P =
            .ok (hmacSha256Base64 k
              (toUpperCase unicodeUpper method ++ " api.ticketevolution.com" ++
                signaturePath path ++ "?" ++ serialize pairs))) := by
  constructor
  · intro msg h
    rcases generateSignature_error h with ⟨m, hm⟩
    cases hm
  · intro wf hd hc key o hmem hp
    have hq := queryString_ok wf (fun e he _ => hd e he)
    refine ⟨_, hq, ?_, ?_⟩
    · refine List.mem_flatMap.2 ⟨(key, .atom (.object o)),
        mem_entries_sortedParams wf hmem hp, ?_⟩
      simp [valuePairs, Atom.text]
    · intro k
      unfold generateSignature
      rw [stringToSign_eq, stringifyParams_ok hc]
      unfold queryStringStr
      rw [hq]
      rfl

theorem structured_values_are_stringified_witness :
    ∃ pairs,
      queryString ⟨[("filter", .atom (.object ⟨["a", "b"], false⟩)),
        ("q", .atom (.str "foo"))]⟩ = .ok pairs ∧
      ("filter", "[object Object]") ∈ pairs ∧
      ∀ k, generateSignature (fun c => [c]) (fun k m => k ++ m) (.str k) "GET" "/events"
          ⟨[("filter", .atom (.object ⟨["a", "b"], false⟩)), ("q", .atom (.str "foo"))]⟩ =
        .ok ((fun k m => k ++ m) k
          (toUpperCase (fun c => [c]) "GET" ++ " api.ticketevolution.com" ++
            signaturePath "/events" ++ "?" ++ serialize pairs)) :=
  (structured_values_are_stringified (fun c => [c]) (fun k m => k ++ m) .null "GET" "/events"
    ⟨[("filter", .atom (.object ⟨["a", "b"], false⟩)), ("q", .atom (.str "foo"))]⟩).2
    (by decide) (by decide) (by decide) "filter" ⟨["a", "b"], false⟩ (by decide) (by decide)

/-- C8, as stated, fails: for the parameters `{filter: {}}` a signature is
returned, computed over the text `[object Object]` of the nested object. -/
theorem nested_object_is_signed :
    stringToSign (fun c => [c]) "GET" "/events" ⟨[("filter", .atom (.object ⟨[], false⟩))]⟩ =
      .ok "GET api.ticketevolution.com/v9/events?filter=%5Bobject+Object%5D" ∧
    ∀ (unicodeUpper : Char → List Char) (hmacSha256Base64 : String → String → String)
      (k : String),
      generateSignature unicodeUpper hmacSha256Base64 (.str k) "GET" "/events"
          ⟨[("filter", .atom (.object ⟨[], false⟩))]⟩ =
        .ok (hmacSha256Base64 k
          "GET api.ticketevolution.com/v9/events?filter=%5Bobject+Object%5D") := by
  have h : stringToSign (fun c => [c]) "GET" "/events"
      ⟨[("filter", .atom (.object ⟨[], false⟩))]⟩ =
      .ok "GET api.ticketevolution.com/v9/events?filter=%5Bobject+Object%5D" := by decide
  refine ⟨h, fun U f k => ?_⟩
  unfold generateSignature
  rw [stringToSign_ascii U (fun c => [c]) "GET" _ _ (by decide), h]
  rfl

/-! ## Claims about the version prefix -/

theorem startsWith_v9_append (path : String) : startsWith ("/v9" ++ path) "/v9" = true := by
  simp [startsWith, String.data_append, List.isPrefixOf]

theorem signaturePath_idem (path : String) :
    signaturePath (signaturePath path) = signaturePath path := by
  unfold signaturePath
  by_cases h : startsWith path "/v9" = true
  · simp [h]
  · simp [h, startsWith_v9_append]

/-- C4, as the code has it: for every path that does not begin with the three
characters `/v9`, signing the path and signing `/v9` followed by the path give
the same string to sign and the same signature, and the versioned path is
`/v9` followed by the path, which does not begin with `/v9/v9`. -/
theorem version_segment_normalization (unicodeUpper : Char → List Char)
    (hmacSha256Base64 : String → String → String)
    (secret : Credential) (method path : String) (P : JSObject Value)
    (h : startsWith path "/v9" = false) :
    signaturePath path = "/v9" ++ path ∧
    signaturePath ("/v9" ++ path) = "/v9" ++ path ∧
    startsWith (signaturePath path) "/v9/v9" = false ∧
    stringToSign unicodeUpper method ("/v9" ++ path) P =
      stringToSign unicodeUpper method path P ∧
    generateSignature unicodeUpper hmacSha256Base64 secret method ("/v9" ++ path) P =
      generateSignature unicodeUpper hmacSha256Base64 secret method path P := by
  have h1 : signaturePath path = "/v9" ++ path := by simp [signaturePath, h]
  have h2 : signaturePath ("/v9" ++ path) = "/v9" ++ path := by
    simp [signaturePath, startsWith_v9_append]
  have h3 : stringToSign unicodeUpper method ("/v9" ++ path) P =
      stringToSign unicodeUpper method path P := by
    rw [stringToSign_eq, stringToSign_eq, h1, h2]
  refine ⟨h1, h2, ?_, h3, ?_⟩
  · rw [h1]
    simp only [startsWith] at h ⊢
    cases hp : path.data with
    | nil => simp [String.data_append, hp, List.isPrefixOf]
    | cons a r1 =>
      cases r1 with
      | nil => simp [String.data_append, hp, List.isPrefixOf]
      | cons b r2 =>
        cases r2 with
        | nil => simp [String.data_append, hp, List.isPrefixOf]
        | cons c r3 =>
          rw [hp] at h
          simp [List.isPrefixOf] at h
          simp [String.data_append, hp, List.isPrefixOf]
          exact h
  · unfold generateSignature
    rw [h3]

theorem version_segment_normalization_witness :
    signaturePath "/events/search" = "/v9" ++ "/events/search" ∧
    signaturePath ("/v9" ++ "/events/search") = "/v9" ++ "/events/search" ∧
    startsWith (signaturePath "/events/search") "/v9/v9" = false ∧
    stringToSign (fun c => [c]) "GET" ("/v9" ++ "/events/search")
        ⟨[("q", .atom (.str "foo"))]⟩ =
      stringToSign (fun c => [c]) "GET" "/events/search" ⟨[("q", .atom (.str "foo"))]⟩ ∧
    generateSignature (fun c => [c]) (fun k m => k ++ m) (.str "shh") "GET"
        ("/v9" ++ "/events/search") ⟨[("q", .atom (.str "foo"))]⟩ =
      generateSignature (fun c => [c]) (fun k m => k ++ m) (.str "shh") "GET" "/events/search"
        ⟨[("q", .atom (.str "foo"))]⟩ :=
  version_segment_normalization (fun c => [c]) (fun k m => k ++ m) (.str "shh") "GET"
    "/events/search" ⟨[("q", .atom (.str "foo"))]⟩ (by decide)

/-- C4, as stated, fails: the path `/v90/events` is not `/v9` and does not
begin with `/v9/`, yet signing it and signing `/v9/v90/events` give different
strings to sign. -/
theorem version_test_is_textual :
    "/v90/events" ≠ "/v9" ∧ startsWith "/v90/events" "/v9/" = false ∧
    stringToSign (fun c => [c]) "GET" "/v90/events" ⟨[]⟩ =
      .ok "GET api.ticketevolution.com/v90/events?" ∧
    stringToSign (fun c => [c]) "GET" ("/v9" ++ "/v90/events") ⟨[]⟩ =
      .ok "GET api.ticketevolution.com/v9/v90/events?" ∧
    stringToSign (fun c => [c]) "GET" "/v90/events" ⟨[]⟩ ≠
      stringToSign (fun c => [c]) "GET" ("/v9" ++ "/v90/events") ⟨[]⟩ := by
  decide

/-! ## Claims about `makeRequest` -/

theorem formatItems_error {key : String} {items : List Atom} {fp : JSObject Value}
    {e : JSError} (h : formatItems key items fp = .error e) : ∃ m, e = .typeError m := by
  induction items generalizing fp with
  | nil => simp [formatItems] at h
  | cons a rest ih =>
    simp only [formatItems] at h
    split at h
    · split at h
      · rename_i e2 he
        cases h
        exact toString_error he
      · split at h
        · exact ih h
        · exact ih h
    · split at h
      · rename_i e2 he
        cases h
        exact toString_error he
      · exact ih h

theorem formatItems_ok (key : String) (items : List Atom) (fp : JSObject Value)
    (h : ∀ a ∈ items, a.hasText = true) : ∃ r, formatItems key items fp = .ok r := by
  induction items generalizing fp with
  | nil => exact ⟨fp, rfl⟩
  | cons a rest ih =>
    have hrest : ∀ b ∈ rest, b.hasText = true := fun b hb => h b (List.mem_cons_of_mem _ hb)
    simp only [formatItems, toString_of_hasText "item" (h a (List.mem_cons_self _ _))]
    split
    · split
      · exact ih _ hrest
      · exact ih _ hrest
    · exact ih _ hrest

theorem formatEntries_error {es : List (String × Value)} {fp : JSObject Value}
    {e : JSError} (h : formatEntries es fp = .error e) : ∃ m, e = .typeError m := by
  induction es generalizing fp with
  | nil => simp [formatEntries] at h
  | cons x rest ih =>
    obtain ⟨k, v⟩ := x
    cases v with
    | atom a =>
      simp only [formatEntries] at h
      exact ih h
    | list items =>
      simp only [formatEntries] at h
      split at h
      · rename_i e2 he
        cases h
        exact formatItems_error he
      · exact ih h

theorem formatEntries_ok (es : List (String × Value)) (fp : JSObject Value)
    (h : ∀ e ∈ es, e.2.hasText = true) : ∃ r, formatEntries es fp = .ok r := by
  induction es generalizing fp with
  | nil => exact ⟨fp, rfl⟩
  | cons x rest ih =>
    obtain ⟨k, v⟩ := x
    have hrest : ∀ e ∈ rest, e.2.hasText = true := fun b hb => h b (List.mem_cons_of_mem _ hb)
    cases v with
    | atom a =>
      simp only [formatEntries]
      exact ih _ hrest
    | list items =>
      have hi : ∀ a ∈ items, a.hasText = true := by
        have := h (k, .list items) (List.mem_cons_self _ _)
        simpa [Value.hasText] using this
      rcases formatItems_ok k items fp hi with ⟨r, hr⟩
      simp only [formatEntries, hr]
      exact ih _ hrest

theorem formattedParams_error {params : Option (JSObject Value)} {e : JSError}
    (h : formattedParams params = .error e) : ∃ m, e = .typeError m := by
  cases params with
  | none => cases h
  | some p => exact formatEntries_error h

theorem formattedParams_ok (params : Option (JSObject Value))
    (h : ∀ p, params = some p → ∀ e ∈ p.props, e.2.hasText = true) :
    ∃ r, formattedParams params = .ok r := by
  cases params with
  | none => exact ⟨_, rfl⟩
  | some p => exact formatEntries_ok _ _ (fun e he => h p rfl e (entries_subset he))

theorem requestUrl_ok (unicodeUpper : Char → List Char) (method url : String)
    (params : Option (JSObject Value))
    (h : ∀ p, params = some p → ∀ e ∈ p.props, e.2.hasText = true) :
    requestUrl unicodeUpper method url params =
      .ok (url ++
        params.elim "" (fun p =>
          if toUpperCase unicodeUpper method = "GET" then
            "?" ++ serialize (p.entries.flatMap (fun e => valuePairs e.1 e.2))
          else "")) := by
  cases params with
  | none => simp [requestUrl]
  | some p =>
    unfold requestUrl
    simp only
    split
    · rw [appendEntries_ok _ _ (fun e he => h p rfl e (entries_subset he))]
      simp [String.append_assoc]
    · simp

theorem rethrow_ne_credentials {J : Type} (r : Except JSError J) :
    rethrow r ≠ .error (.error "Ticket Evolution API token and secret must be configured.") := by
  cases r with
  | ok j => simp [rethrow]
  | error e =>
    simp only [rethrow, ne_eq, Except.error.injEq, JSError.error.injEq]
    intro h
    have h2 := congrArg String.data h
    simp [String.data_append] at h2

theorem falsy_iff (c : Credential) :
    c.falsy = true ↔ c = .null ∨ c = .undefined ∨ c = .str "" := by
  cases c with
  | null => simp [Credential.falsy]
  | undefined => simp [Credential.falsy]
  | str s => simp [Credential.falsy]

theorem makeRequest_of_falsy {J B : Type} (env : Env J B) (token secret : Credential)
    (method path : String) (params : Option (JSObject Value)) (body : Option B)
    (h : token.falsy = true ∨ secret.falsy = true) :
    makeRequest env token secret method path params body =
      ⟨.error (.error "Ticket Evolution API token and secret must be configured."), [], []⟩ := by
  have hc : (token.falsy || secret.falsy) = true := by
    rcases h with h | h <;> simp [h]
  simp [makeRequest, hc, credentialsMessage]

theorem makeRequest_result_of_truthy {J B : Type} (env : Env J B) (token secret : Credential)
    (method path : String) (params : Option (JSObject Value)) (body : Option B)
    (ht : token.falsy = false) (hs : secret.falsy = false) :
    (makeRequest env token secret method path params body).result ≠
      .error (.error "Ticket Evolution API token and secret must be configured.") := by
  unfold makeRequest
  simp only [ht, hs, Bool.or_self, Bool.false_eq_true, ↓reduceIte]
  split
  · rename_i e he
    rcases formattedParams_error he with ⟨m, hm⟩
    subst hm
    simp
  · split
    · rename_i e he
      rcases generateSignature_error he with ⟨m, hm⟩
      subst hm
      simp
    · split
      · dsimp only
        exact rethrow_ne_credentials _
      · split
        · dsimp only
          exact rethrow_ne_credentials _
        · split
          · dsimp only
            exact rethrow_ne_credentials _
          · dsimp only
            exact rethrow_ne_credentials _

/-- C7: `generateSignature` never fails with an error of the program's own and
signs under the empty secret like under any other string; `makeRequest` fails
with "Ticket Evolution API token and secret must be configured." exactly when
the token or the secret is `null`, `undefined` or the empty string, and then it
computes no signature and issues no HTTP call. -/
theorem credential_check_boundary {J B : Type} (env : Env J B) (token secret : Credential)
    (method path : String) (params : Option (JSObject Value)) (body : Option B)
    (P : JSObject Value) :
    (∀ msg, generateSignature env.unicodeUpper env.hmacSha256Base64 secret method path P ≠
      .error (.error msg)) ∧
    (generateSignature env.unicodeUpper env.hmacSha256Base64 (.str "") method path P =
      match stringToSign env.unicodeUpper method path P with
      | .error e => .error e
      | .ok s =>
        match stringifyParams P with
        | .error e => .error e
        | .ok _ => .ok (env.hmacSha256Base64 "" s)) ∧
    ((makeRequest env token secret method path params body).result =
        .error (.error "Ticket Evolution API token and secret must be configured.") ↔
      (token = .null ∨ token = .undefined ∨ token = .str "") ∨
        (secret = .null ∨ secret = .undefined ∨ secret = .str "")) ∧
    ((token = .null ∨ token = .undefined ∨ token = .str "") ∨
        (secret = .null ∨ secret = .undefined ∨ secret = .str "") →
      (makeRequest env token secret method path params body).signatures = [] ∧
        (makeRequest env token secret method path params body).calls = []) := by
  refine ⟨?_, ?_, ?_, ?_⟩
  · intro msg h
    rcases generateSignature_error h with ⟨m, hm⟩
    cases hm
  · unfold generateSignature
    cases stringToSign env.unicodeUpper method path P with
    | error e => rfl
    | ok s => cases stringifyParams P <;> rfl
  · rw [← falsy_iff, ← falsy_iff]
    constructor
    · intro h
      by_contra hn
      have ht : token.falsy = false := by
        cases hf : token.falsy
        · rfl
        · exact absurd (Or.inl hf) hn
      have hs : secret.falsy = false := by
        cases hf : secret.falsy
        · rfl
        · exact absurd (Or.inr hf) hn
      exact makeRequest_result_of_truthy env token secret method path params body ht hs h
    · intro h
      rw [makeRequest_of_falsy env token secret method path params body h]
  · rw [← falsy_iff, ← falsy_iff]
    intro h
    rw [makeRequest_of_falsy env token secret method path params body h]
    exact ⟨rfl, rfl⟩

theorem credential_check_boundary_witness :
    (makeRequest (J := String) (B := String)
        ⟨fun c => [c], fun k m => k ++ m, fun _ => true, fun b => .ok (some b),
          fun _ _ => .error (.error "offline"), fun _ => none⟩
        (.str "token") (.str "") "GET" "/events" none none).signatures = [] ∧
      (makeRequest (J := String) (B := String)
        ⟨fun c => [c], fun k m => k ++ m, fun _ => true, fun b => .ok (some b),
          fun _ _ => .error (.error "offline"), fun _ => none⟩
        (.str "token") (.str "") "GET" "/events" none none).calls = [] :=
  (credential_check_boundary (J := String) (B := String)
    ⟨fun c => [c], fun k m => k ++ m, fun _ => true, fun b => .ok (some b),
      fun _ _ => .error (.error "offline"), fun _ => none⟩
    (.str "token") (.str "") "GET" "/events" none none ⟨[]⟩).2.2.2
    (Or.inr (Or.inr (Or.inr rfl)))

theorem signaturePath_eq_urlPath (path : String) : signaturePath path = "/v9" ++ urlPath path := by
  unfold signaturePath urlPath
  by_cases h : startsWith path "/v9" = true
  · simp only [h, ↓reduceIte]
    unfold startsWith at h
    have hpre : "/v9".data <+: path.data := List.isPrefixOf_iff_prefix.1 h
    rcases hpre with ⟨t, ht⟩
    apply String.ext
    rw [String.data_append, substring, ← ht]
    simp
  · simp [h]

theorem baseUrl_append (rest : String) :
    baseUrl ++ rest = "https://api.ticketevolution.com" ++ ("/v9" ++ rest) := by
  rw [← String.append_assoc]
  rfl

/-- C10: for every path the versioned path that is signed is `/v9` followed by
the path appended to the base URL, so the base URL followed by that path is
the host followed by the signed path, and signing the prefixed path adds no
second prefix; with credentials configured, parameters on which `toString()`
returns and which hold no circular object, and a body that can be serialised,
`makeRequest` issues exactly one call: its URL is
`https://api.ticketevolution.com`, the signed versioned path and, for a `GET`
with parameters only, `?` and the query of the parameters; its `X-Signature`
is the digest of the string to sign built on that same versioned path. -/
theorem signed_path_is_requested_path {J B : Type} (env : Env J B) (t k : String)
    (method path : String) (params : Option (JSObject Value)) (body : Option B) :
    signaturePath path = "/v9" ++ urlPath path ∧
    signaturePath (signaturePath path) = signaturePath path ∧
    baseUrl ++ urlPath path = "https://api.ticketevolution.com" ++ signaturePath path ∧
    (t ≠ "" → k ≠ "" → (∀ p, params = some p → p.WellFormed) →
      (∀ p, params = some p → ∀ e ∈ p.props, e.2.hasText = true) →
      (∀ p, params = some p → ∀ e ∈ p.props, e.2.circular = false) →
      ∀ bodyText, requestBody env body = .ok bodyText →
        (makeRequest env (.str t) (.str k) method path params body).calls =
          [("https://api.ticketevolution.com" ++ ("/v9" ++ urlPath path) ++
              params.elim "" (fun p =>
                if toUpperCase env.unicodeUpper method = "GET" then
                  "?" ++ serialize (p.entries.flatMap (fun e => valuePairs e.1 e.2))
                else ""),
            ⟨toUpperCase env.unicodeUpper method,
              [("X-Token", t),
                ("X-Signature", env.hmacSha256Base64 k
                  (toUpperCase env.unicodeUpper method ++ " api.ticketevolution.com" ++
                    ("/v9" ++ urlPath path) ++ "?" ++
                    serialize ((sortedParams (params.getD JSObject.empty)).entries.flatMap
                      (fun e => valuePairs e.1 e.2)))),
                ("Accept", "application/json")] ++
                (if bodyGiven env body then [("Content-Type", "application/json")] else []),
              bodyText⟩)] ∧
        (makeRequest env (.str t) (.str k) method path params body).signatures =
          [env.hmacSha256Base64 k
            (toUpperCase env.unicodeUpper method ++ " api.ticketevolution.com" ++
              ("/v9" ++ urlPath path) ++ "?" ++
              serialize ((sortedParams (params.getD JSObject.empty)).entries.flatMap
                (fun e => valuePairs e.1 e.2)))]) := by
  refine ⟨signaturePath_eq_urlPath path, signaturePath_idem path, ?_, ?_⟩
  · rw [baseUrl_append, signaturePath_eq_urlPath]
  intro ht hk hwf hd hc bodyText hbody
  have hP : (params.getD JSObject.empty).WellFormed := by
    cases params with
    | none => simp [JSObject.WellFormed, JSObject.empty]
    | some p => exact hwf p rfl
  have hPd : ∀ e ∈ (params.getD JSObject.empty).props, e.1 ≠ "__proto__" →
      e.2.hasText = true := by
    cases params with
    | none => simp [JSObject.empty]
    | some p => exact fun e he _ => hd p rfl e he
  have hPc : ∀ e ∈ (params.getD JSObject.empty).props, e.2.circular = false := by
    cases params with
    | none => simp [JSObject.empty]
    | some p => exact fun e he => hc p rfl e he
  have hq := queryStringStr_ok hP hPd
  have hsig : generateSignature env.unicodeUpper env.hmacSha256Base64 (.str k) method
      (signaturePath path) (params.getD JSObject.empty) =
      .ok (env.hmacSha256Base64 k
        (toUpperCase env.unicodeUpper method ++ " api.ticketevolution.com" ++
          ("/v9" ++ urlPath path) ++ "?" ++
          serialize ((sortedParams (params.getD JSObject.empty)).entries.flatMap
            (fun e => valuePairs e.1 e.2)))) := by
    unfold generateSignature
    rw [stringToSign_eq, hq, signaturePath_idem, signaturePath_eq_urlPath,
      stringifyParams_ok hPc]
    rfl
  rcases formattedParams_ok params hd with ⟨fp, hfp⟩
  have hurl := requestUrl_ok env.unicodeUpper method (baseUrl ++ urlPath path) params hd
  have hft : (Credential.str t).falsy = false := by simp [Credential.falsy, ht]
  have hfk : (Credential.str k).falsy = false := by simp [Credential.falsy, hk]
  constructor
  · unfold makeRequest
    simp only [hft, hfk, Bool.or_self, Bool.false_eq_true, ↓reduceIte, hfp, hsig, hurl, hbody]
    rw [baseUrl_append]
    cases env.fetch _ _ <;> rfl
  · unfold makeRequest
    simp only [hft, hfk, Bool.or_self, Bool.false_eq_true, ↓reduceIte, hfp, hsig, hurl, hbody]
    cases env.fetch _ _ <;> rfl

theorem signed_path_is_requested_path_witness :
    (makeRequest (J := String) (B := String)
        ⟨fun c => [c], fun k m => k ++ ":" ++ m, fun _ => true, fun b => .ok (some b),
          fun _ _ => .error (.error "offline"), fun _ => none⟩
        (.str "token") (.str "shh") "get" "/v9/events/search"
        (some ⟨[("q", .atom (.str "foo")), ("page", .atom (.num (.int 2 (by decide))))]⟩)
        none).calls =
      [("https://api.ticketevolution.com/v9/events/search?q=foo&page=2",
        ⟨"GET",
          [("X-Token", "token"),
            ("X-Signature", "shh:GET api.ticketevolution.com/v9/events/search?page=2&q=foo"),
            ("Accept", "application/json")],
          none⟩)] ∧
    (makeRequest (J := String) (B := String)
        ⟨fun c => [c], fun k m => k ++ ":" ++ m, fun _ => true, fun b => .ok (some b),
          fun _ _ => .error (.error "offline"), fun _ => none⟩
        (.str "token") (.str "shh") "get" "/v9/events/search"
        (some ⟨[("q", .atom (.str "foo")), ("page", .atom (.num (.int 2 (by decide))))]⟩)
        none).signatures =
      ["shh:GET api.ticketevolution.com/v9/events/search?page=2&q=foo"] :=
  ⟨((signed_path_is_requested_path (J := String) (B := String)
      ⟨fun c => [c], fun k m => k ++ ":" ++ m, fun _ => true, fun b => .ok (some b),
        fun _ _ => .error (.error "offline"), fun _ => none⟩
      "token" "shh" "get" "/v9/events/search"
      (some ⟨[("q", .atom (.str "foo")), ("page", .atom (.num (.int 2 (by decide))))]⟩)
      none).2.2.2
      (by decide) (by decide)
      (fun p h => by cases h; decide)
      (fun p h => by cases h; decide)
      (fun p h => by cases h; decide)
      none rfl).1.trans (by decide),
    ((signed_path_is_requested_path (J := String) (B := String)
      ⟨fun c => [c], fun k m => k ++ ":" ++ m, fun _ => true, fun b => .ok (some b),
        fun _ _ => .error (.error "offline"), fun _ => none⟩
      "token" "shh" "get" "/v9/events/search"
      (some ⟨[("q", .atom (.str "foo")), ("page", .atom (.num (.int 2 (by decide))))]⟩)
      none).2.2.2
      (by decide) (by decide)
      (fun p h => by cases h; decide)
      (fun p h => by cases h; decide)
      (fun p h => by cases h; decide)
      none rfl).2.trans (by decide)⟩

/-! ## What holds of the rebuilt parameters

The two statements below bound the defects shown for keys that are array
indices and for the key `__proto__`: away from such keys the pairs are in
sorted order and none is left out. -/

theorem entries_perm {V : Type} {o : JSObject V} (wf : o.WellFormed) :
    o.entries.Perm o.props := by
  unfold JSObject.entries
  refine ((ownKeys_perm_keys o).filterMap _).trans ?_
  rw [List.filterMap_map]
  have h : List.filterMap ((fun k => (o.get? k).map (fun v => (k, v))) ∘ Prod.fst) o.props =
      List.filterMap some o.props := by
    apply List.filterMap_congr
    intro e he
    obtain ⟨k, v⟩ := e
    simp [get?_of_mem wf he]
  rw [h, List.filterMap_some]

theorem sortedParams_props_perm {P : JSObject Value} (wf : P.WellFormed)
    (hp : ∀ e ∈ P.props, e.1 ≠ "__proto__") : (sortedParams P).props.Perm P.props := by
  rw [sortedParams_props wf]
  have hk : ∀ k ∈ jsSort P.ownKeys, (k != "__proto__") = true := by
    intro k hk
    have hk2 : k ∈ P.props.map Prod.fst := (mem_ownKeys P k).1 ((jsSort_perm _).mem_iff.1 hk)
    rcases List.mem_map.1 hk2 with ⟨e, he, hek⟩
    have := hp e he
    rw [hek] at this
    simpa using this
  rw [List.filter_eq_self.2 hk]
  refine (((jsSort_perm _).trans (ownKeys_perm_keys P)).map _).trans ?_
  rw [List.map_map]
  have h : List.map ((fun k => (k, (P.get? k).getD (Value.atom Atom.undefined))) ∘ Prod.fst)
      P.props = List.map id P.props := by
    apply List.map_congr_left
    intro e he
    obtain ⟨k, v⟩ := e
    simp [get?_of_mem wf he]
  rw [h, List.map_id]

theorem length_valuePairs (key : String) (v : Value) :
    (valuePairs key v).length = v.pairCount := by
  cases v <;> simp [valuePairs, Value.pairCount]

/-- In a duplicate-free mapping of scalars and lists of scalars that has no
key `__proto__`, no parameter is left out: the number of pairs appended is the
number of scalar-valued keys plus the total number of list items. -/
theorem pairs_counted (P : JSObject Value) (wf : P.WellFormed)
    (hp : ∀ e ∈ P.props, e.1 ≠ "__proto__") (hd : ∀ e ∈ P.props, e.2.isData = true) :
    ∃ pairs, queryString P = .ok pairs ∧
      pairs.length = (P.props.map (fun e => e.2.pairCount)).sum := by
  refine ⟨_, queryString_ok wf (fun e he _ => hasText_of_isData (hd e he)), ?_⟩
  rw [List.length_flatMap]
  have hperm : (sortedParams P).entries.Perm P.props :=
    (entries_perm (sortedParams_wf wf)).trans (sortedParams_props_perm wf hp)
  have hf : (List.length ∘ fun (e : String × Value) => valuePairs e.1 e.2) =
      fun e => e.2.pairCount := by
    funext e
    exact length_valuePairs e.1 e.2
  rw [hf]
  exact (hperm.map _).sum_eq

theorem pairs_counted_witness :
    ∃ pairs,
      queryString ⟨[("q", .atom (.str "foo")), ("tags", .list [.str "a", .str "b"]),
        ("ids", .list [])]⟩ = .ok pairs ∧
      pairs.length =
        ((JSObject.mk [("q", Value.atom (.str "foo")), ("tags", .list [.str "a", .str "b"]),
          ("ids", .list [])]).props.map (fun e => e.2.pairCount)).sum :=
  pairs_counted ⟨[("q", .atom (.str "foo")), ("tags", .list [.str "a", .str "b"]),
    ("ids", .list [])]⟩ (by decide) (by decide) (by decide)

theorem get?_isSome_of_key {V : Type} {o : JSObject V} {key : String}
    (h : key ∈ o.props.map Prod.fst) : ∃ v, o.get? key = some v := by
  rcases List.mem_map.1 h with ⟨e, he, hek⟩
  unfold JSObject.get?
  cases hf : o.props.find? (fun p => p.1 == key) with
  | some p => exact ⟨p.2, rfl⟩
  | none =>
    have := List.find?_eq_none.1 hf e he
    simp [hek] at this

theorem entries_keys {V : Type} (o : JSObject V) : o.entries.map Prod.fst = o.ownKeys := by
  unfold JSObject.entries
  rw [List.map_filterMap]
  have h : List.filterMap (fun k => Option.map Prod.fst ((o.get? k).map (fun v => (k, v))))
      o.ownKeys = List.filterMap some o.ownKeys := by
    apply List.filterMap_congr
    intro k hk
    rcases get?_isSome_of_key ((mem_ownKeys o k).1 hk) with ⟨v, hv⟩
    simp [hv]
  rw [h, List.filterMap_some]

theorem ownKeys_without_index_keys {V : Type} (o : JSObject V)
    (hi : ∀ k ∈ o.props.map Prod.fst, isIndexKey k = false) :
    o.ownKeys = o.props.map Prod.fst := by
  unfold JSObject.ownKeys
  have h1 : List.filter isIndexKey (o.props.map Prod.fst) = [] := by
    apply List.filter_eq_nil_iff.2
    intro k hk
    simp [hi k hk]
  have h2 : List.filter (fun k => !isIndexKey k) (o.props.map Prod.fst) =
      o.props.map Prod.fst := by
    apply List.filter_eq_self.2
    intro k hk
    simp [hi k hk]
  simp only [h1, h2, List.insertionSort, List.nil_append]

/-- In a duplicate-free mapping none of whose keys is an array index, the
entries of the rebuilt parameters, from which the pairs are appended one entry
after the other, are in the sorted order of their keys. -/
theorem entries_sorted_without_index_keys (P : JSObject Value) (wf : P.WellFormed)
    (hi : ∀ e ∈ P.props, isIndexKey e.1 = false) :
    ((sortedParams P).entries.map Prod.fst).Sorted keyLE := by
  rw [entries_keys, ownKeys_without_index_keys]
  · rw [sortedParams_props wf, List.map_map]
    have : (Prod.fst ∘ fun k => (k, (P.get? k).getD (Value.atom Atom.undefined))) = id := by
      funext k; rfl
    rw [this, List.map_id]
    exact (jsSort_sorted _).filter _
  · intro k hk
    rcases List.mem_map.1 hk with ⟨e, he, hek⟩
    obtain ⟨k2, v⟩ := e
    have := (of_mem_sortedParams wf he).1
    simp only at hek
    rw [← hek]
    exact hi _ this

theorem entries_sorted_without_index_keys_witness :
    ((sortedParams ⟨[("q", .atom (.str "foo")), ("page", .atom (.num (.int 1 (by decide)))),
      ("Z", .list [])]⟩).entries.map Prod.fst).Sorted keyLE :=
  entries_sorted_without_index_keys
    ⟨[("q", .atom (.str "foo")), ("page", .atom (.num (.int 1 (by decide)))), ("Z", .list [])]⟩
    (by decide) (by decide)

/-- Two nested objects on which `generateSignature` throws: `{toString: 1}`,
on which `value.toString()` cannot be called, and a circular object, on which
`JSON.stringify(params)` in the debug logging fails. -/
theorem nested_objects_that_throw :
    generateSignature (fun c => [c]) (fun k m => k ++ m) (.str "shh") "GET" "/events"
        ⟨[("filter", .atom (.object ⟨["toString"], false⟩))]⟩ =
      .error (.typeError "value.toString is not a function") ∧
    generateSignature (fun c => [c]) (fun k m => k ++ m) (.str "shh") "GET" "/events"
        ⟨[("filter", .atom (.object ⟨["self"], true⟩))]⟩ =
      .error (.typeError "Converting circular structure to JSON") := by
  decide

end TicketEvolution
